import Mathlib

/-!
Verification development for the sprint-buddy daily-accountability tracker.

The embedding translates the core decision logic of the two page variants
(the single-file variant and `src/app/page.tsx`): task-text normalization,
action-list normalization, the persisted-state codec, the resistance
classifier, the task-suggestion engine, the streak calculator, the penalty
engine, and the deadline check.

Modelling conventions:
* JavaScript runtime values produced by `JSON.parse` (and duck-typed
  property access) are modelled by the inductive `Json`;
  `undefined` results of property access are modelled by `Option Json`.
* JavaScript numbers are modelled by `ℚ`; the persisted-state numbers only
  flow through `min`, `max`, `+`, `-`, `*` and comparisons, where rational
  arithmetic agrees with the float arithmetic on the magnitudes involved.
* Wall-clock inputs are passed explicitly: the deadline check receives the
  current local time-of-day in milliseconds, and the streak calculator
  receives today's civil date.  The embedding assumes a UTC environment,
  where the source's `new Date(key + "T00:00:00").toISOString().slice(0,10)`
  round-trip is the identity on date keys.
* `localStorage` effects are modelled by returning, next to the decoded
  state, whether the corrupt blob was removed.
-/

namespace SprintBuddy

/-- Runtime model of JavaScript values reachable from `JSON.parse` output. -/
inductive Json where
  | null
  | bool (b : Bool)
  | num (q : ℚ)
  | str (s : String)
  | arr (items : List Json)
  | obj (fields : List (String × Json))

/-- Property lookup `o[k]` on a runtime value: `none` models `undefined`.
On a parsed JSON object duplicate keys keep the last occurrence, hence the
reversed search. Property access on non-objects yields `undefined` for the
names used here (arrays/strings/numbers have none of these properties). -/
def jget (j : Json) (k : String) : Option Json :=
  match j with
  | Json.obj fields => (fields.reverse.find? (fun p => p.1 == k)).map (fun p => p.2)
  | _ => none

/-- The `ActionItem` record type of the source. -/
structure ActionItem where
  id : String
  text : String
  completedDates : List String
deriving DecidableEq

/-- The `SavedState` record type of the single-file variant (in-memory,
well-typed form used by the React state variables). -/
structure SavedState where
  plannerGoal : String
  plannerProblem : String
  actions : List ActionItem
  proofLog : String
  strictMode : Bool
  deadlineTime : String
  stakeBalance : ℚ
  stakePerMiss : ℚ
  totalPenalties : ℚ
  lastPenaltyDate : String
deriving DecidableEq

/-- The `defaultState` constant of the source. -/
def defaultState : SavedState :=
  { plannerGoal := ""
    plannerProblem := ""
    actions := []
    proofLog := ""
    strictMode := true
    deadlineTime := "21:00"
    stakeBalance := 0
    stakePerMiss := 15
    totalPenalties := 0
    lastPenaltyDate := "" }

/-- JavaScript `StrWhiteSpaceChar` (the common code points). -/
def jsWhitespaceChar (c : Char) : Bool :=
  c == ' ' || c == '\t' || c == '\n' || c == '\r' || c == '\x0b' || c == '\x0c' ||
    c == '\xa0' || c.val == 0x2028 || c.val == 0x2029 || c.val == 0xfeff

/-- Models `.trim()`: strip JavaScript whitespace from both ends. -/
def jsTrim (s : String) : String :=
  String.mk (((s.toList.dropWhile jsWhitespaceChar).reverse.dropWhile jsWhitespaceChar).reverse)

/-- Models `.toLowerCase()` character-wise.  `Char.toLower` lowercases the
ASCII range; the keyword phrases and task texts involved are ASCII. -/
def jsLower (s : String) : String :=
  String.mk (s.toList.map Char.toLower)

/-- Character class `[a-z0-9]` of the normalization regex. -/
def isKeyChar (c : Char) : Bool :=
  ('a' ≤ c && c ≤ 'z') || ('0' ≤ c && c ≤ '9')

/-- Models `.replace(/[^a-z0-9]+/g, " ")`: each maximal run of characters
outside `[a-z0-9]` becomes a single space.  The boolean flag records whether
the previous character was part of such a run. -/
def squashNonKey : List Char → Bool → List Char
  | [], _ => []
  | c :: cs, inRun =>
    if isKeyChar c then c :: squashNonKey cs false
    else if inRun then squashNonKey cs true
    else ' ' :: squashNonKey cs true

/-- Strip leading and trailing spaces (after the replacement above, space is
the only whitespace the string can contain, so this models `.trim()`). -/
def trimSpaces (l : List Char) : List Char :=
  ((l.dropWhile (fun c => c == ' ')).reverse.dropWhile (fun c => c == ' ')).reverse

/-- The source's `normalizeTaskText`: lowercase, collapse non-`[a-z0-9]`
runs to single spaces, trim. -/
def normalizeTaskText (value : String) : String :=
  String.mk (trimSpaces (squashNonKey (jsLower value).toList false))

/-- The element predicate of `completedDates.filter((e) => typeof e === "string")`. -/
def jsonAsString : Json → Option String
  | Json.str s => some s
  | _ => none

/-- The `.map` step of the source's `normalizeActions`: decode one raw entry
to a well-typed `ActionItem` (or `null`).  A falsy or non-object entry and a
non-string `id`/`text` yield `null`; a missing or non-array `completedDates`
becomes `[]`, and non-string members of the array are filtered out. -/
def decodeActionItem (j : Json) : Option ActionItem :=
  match j with
  | Json.obj _ =>
    match jget j "id", jget j "text" with
    | some (Json.str i), some (Json.str t) =>
      some
        { id := i
          text := t
          completedDates :=
            match jget j "completedDates" with
            | some (Json.arr l) => l.filterMap jsonAsString
            | _ => [] }
    | _, _ => none
  | _ => none

/-- The `.filter` step of the source's `normalizeActions`.  The JavaScript
filter closure threads a mutable `seen` set; it is modelled by an explicit
accumulator holding the normalization keys of the entries kept so far.
A `null` decode is dropped; an entry whose key is empty or already seen is
dropped; otherwise the entry is kept and its key recorded. -/
def dedupAux : List (Option ActionItem) → List String → List ActionItem
  | [], _ => []
  | none :: rest, seen => dedupAux rest seen
  | some a :: rest, seen =>
    let key := normalizeTaskText a.text
    if key = "" ∨ seen.contains key then dedupAux rest seen
    else a :: dedupAux rest (key :: seen)

/-- The source's `normalizeActions` (single-file variant): non-arrays map to
`[]`; arrays are decoded entry-wise and deduplicated by normalization key. -/
def normalizeActions (value : Json) : List ActionItem :=
  match value with
  | Json.arr items => dedupAux (items.map decodeActionItem) []
  | _ => []

/-- The well-typed decodes of an input, before deduplication (the entries
the spec calls the "well-typed entries in first-seen order"). -/
def decodedItems (value : Json) : List ActionItem :=
  match value with
  | Json.arr items => items.filterMap decodeActionItem
  | _ => []

/-- Modelled from the spec (§4.2): keep the well-typed entries in first-seen
order, dropping any entry whose normalized text key is empty or a duplicate
of an earlier kept entry's key. -/
def keepNew : List ActionItem → List String → List ActionItem
  | [], _ => []
  | a :: rest, seen =>
    let key := normalizeTaskText a.text
    if key = "" ∨ seen.contains key then keepNew rest seen
    else a :: keepNew rest (key :: seen)

/-- Modelled from the spec (§4.2): the normalizer contract
`normalize(candidates) -> ordered sequence of ActionItem`. -/
def normalizeSpec (value : Json) : List ActionItem :=
  keepNew (decodedItems value) []

/-- An `ActionItem` viewed again as a runtime value, as happens when the
output of the normalizer is fed back to it (the spec's idempotence
property) or persisted and re-parsed. -/
def actionToJson (a : ActionItem) : Json :=
  Json.obj
    [("id", Json.str a.id),
     ("text", Json.str a.text),
     ("completedDates", Json.arr (a.completedDates.map Json.str))]

/-- A typed action list viewed as a runtime value. -/
def encodeActions (l : List ActionItem) : Json :=
  Json.arr (l.map actionToJson)

/-! ### State codec (`loadSavedState`)

The decoded record mirrors the actual runtime shape produced by
`{ ...defaultState, ...parsed, ... }` with the duck-typed cast
`as Partial<SavedState>`: the four explicitly validated fields (`actions`,
`stakeBalance`, `stakePerMiss`, `totalPenalties`) are well typed, while the
remaining six fields carry whatever runtime value the blob held. -/

/-- Runtime shape of the record returned by `loadSavedState`. -/
structure LoadedState where
  plannerGoal : Json
  plannerProblem : Json
  proofLog : Json
  strictMode : Json
  deadlineTime : Json
  lastPenaltyDate : Json
  actions : List ActionItem
  stakeBalance : ℚ
  stakePerMiss : ℚ
  totalPenalties : ℚ

/-- The `defaultState` constant viewed at the runtime shape. -/
def defaultLoaded : LoadedState :=
  { plannerGoal := Json.str ""
    plannerProblem := Json.str ""
    proofLog := Json.str ""
    strictMode := Json.bool true
    deadlineTime := Json.str "21:00"
    lastPenaltyDate := Json.str ""
    actions := []
    stakeBalance := 0
    stakePerMiss := 15
    totalPenalties := 0 }

/-- One unvalidated field of the spread `{ ...defaultState, ...parsed }`:
a key present in the parsed blob wins with its raw runtime value, a missing
key falls back to the default. -/
def spreadField (j : Json) (k : String) (dflt : Json) : Json :=
  match jget j k with
  | some v => v
  | none => dflt

/-- One validated numeric field: `typeof x === "number" && x >= 0 ? x : dflt`. -/
def validNumField (j : Json) (k : String) (dflt : ℚ) : ℚ :=
  match jget j k with
  | some (Json.num q) => if 0 ≤ q then q else dflt
  | _ => dflt

/-- The body of the `try` block of `loadSavedState` on a successfully parsed
non-`null` blob. -/
def decodeSavedState (j : Json) : LoadedState :=
  { plannerGoal := spreadField j "plannerGoal" (Json.str "")
    plannerProblem := spreadField j "plannerProblem" (Json.str "")
    proofLog := spreadField j "proofLog" (Json.str "")
    strictMode := spreadField j "strictMode" (Json.bool true)
    deadlineTime := spreadField j "deadlineTime" (Json.str "21:00")
    lastPenaltyDate := spreadField j "lastPenaltyDate" (Json.str "")
    actions :=
      match jget j "actions" with
      | some v => normalizeActions v
      | none => normalizeActions Json.null
    stakeBalance := validNumField j "stakeBalance" 0
    stakePerMiss := validNumField j "stakePerMiss" 15
    totalPenalties := validNumField j "totalPenalties" 0 }

/-- Outcome of `JSON.parse` on the persisted blob: either a thrown
`SyntaxError` or a runtime value. -/
inductive ParseOutcome where
  | failure
  | success (j : Json)

/-- Result of `loadSavedState` together with its storage side effect:
`removedKey` records whether `localStorage.removeItem(APP_STORAGE_KEY)` ran. -/
structure LoadResult where
  state : LoadedState
  removedKey : Bool

/-- The source's `loadSavedState`.  The input models the stored blob:
`none` when no blob is present, otherwise the `JSON.parse` outcome.
A parse failure is caught, the blob is removed and the default state
returned.  A parsed `null` also lands in the `catch` (the property access
`parsed.actions` throws a `TypeError` on `null`), with the same recovery.
Every other parsed value is decoded field-wise; the function never throws. -/
def loadSavedState (saved : Option ParseOutcome) : LoadResult :=
  match saved with
  | none => { state := defaultLoaded, removedKey := false }
  | some ParseOutcome.failure => { state := defaultLoaded, removedKey := true }
  | some (ParseOutcome.success Json.null) => { state := defaultLoaded, removedKey := true }
  | some (ParseOutcome.success j) => { state := decodeSavedState j, removedKey := false }

/-! ### Resistance classifier and task-suggestion engine -/

/-- The `Resistance` union type of the source. -/
inductive Resistance where
  | ambiguity
  | overwhelm
  | anxiety
  | inertia
  | perfectionism
  | default
deriving DecidableEq

/-- Does the literal phrase `pat` occur in `s` starting at index `i`? -/
def listMatchAt (s pat : List Char) (i : Nat) : Bool :=
  pat.isPrefixOf (s.drop i)

/-- Does the literal phrase `pat` occur anywhere in `s`? -/
def listHasSub (s pat : List Char) : Bool :=
  (List.range (s.length + 1)).any (fun i => listMatchAt s pat i)

/-- Literal-substring test on strings. -/
def phraseIn (pat text : String) : Bool :=
  listHasSub text.toList pat.toList

/-- Models `/(p1|p2|…)/.test(text)` for an alternation of literal phrases. -/
def reTest (text : String) (phrases : List String) : Bool :=
  phrases.any (fun p => phraseIn p text)

/-- Models `/(a1|a2).*(b)/.test(text)`: some alternative `a` occurs, and `b`
occurs at or after the end of that occurrence of `a`. -/
def seqTest (text : String) (firsts : List String) (second : String) : Bool :=
  firsts.any (fun a =>
    (List.range (text.toList.length + 1)).any (fun i =>
      listMatchAt text.toList a.toList i &&
        listHasSub (text.toList.drop (i + a.toList.length)) second.toList))

/-- Phrases of the ambiguity regex of `detectResistance`. -/
def ambiguityPhrases : List String :=
  ["don\x27t know where to start", "not sure how", "don\x27t know what to do",
   "where do i begin", "no idea", "confused about", "what should i"]

/-- Phrases of the overwhelm regex of `detectResistance`. -/
def overwhelmPhrases : List String :=
  ["too much", "so many things", "everything", "a lot to do", "piling up",
   "can\x27t keep up", "buried", "behind on"]

/-- Phrases of the anxiety regex of `detectResistance`. -/
def anxietyPhrases : List String :=
  ["stressing", "stressed", "worried", "scared", "nervous", "afraid",
   "matters a lot", "important", "can\x27t mess up", "pressure"]

/-- Phrases of the inertia regex of `detectResistance`. -/
def inertiaPhrases : List String :=
  ["keep putting off", "procrastinat", "avoiding", "haven\x27t started",
   "been meaning to", "weeks", "months", "forever"]

/-- Phrases of the perfectionism regex of `detectResistance`. -/
def perfectionismPhrases : List String :=
  ["has to be perfect", "not good enough", "redoing", "can\x27t finish",
   "keep starting over", "nothing feels right"]

/-- The source's `detectResistance`: lowercase the concatenation and test
the five phrase alternations in order; the first hit wins. -/
def detectResistance (goal blocker : String) : Resistance :=
  let text := jsLower (goal ++ " " ++ blocker)
  if reTest text ambiguityPhrases then Resistance.ambiguity
  else if reTest text overwhelmPhrases then Resistance.overwhelm
  else if reTest text anxietyPhrases then Resistance.anxiety
  else if reTest text inertiaPhrases then Resistance.inertia
  else if reTest text perfectionismPhrases then Resistance.perfectionism
  else Resistance.default

/-- Modelled from the spec (§4.3): the category/phrase-set table in the
fixed priority order ambiguity → overwhelm → anxiety → inertia →
perfectionism. -/
def resistanceTable : List (Resistance × List String) :=
  [(Resistance.ambiguity, ambiguityPhrases),
   (Resistance.overwhelm, overwhelmPhrases),
   (Resistance.anxiety, anxietyPhrases),
   (Resistance.inertia, inertiaPhrases),
   (Resistance.perfectionism, perfectionismPhrases)]

/-- Modelled from the spec (§4.3): `classify(goal, blocker)` returns the
first category in the priority table whose phrase set matches the
case-insensitive concatenation of the two inputs, and `default` when none
matches. -/
def classifySpec (goal blocker : String) : Resistance :=
  let text := jsLower (goal ++ " " ++ blocker)
  match resistanceTable.find? (fun p => reTest text p.2) with
  | some p => p.1
  | none => Resistance.default

/-- Topical-flag phrases of `buildSuggestedTasks`: the tidy/cleaning topic. -/
def roomPhrases : List String :=
  ["room", "floor", "vacuum", "clean", "tidy", "organize", "organise", "mess"]

/-- Topical-flag phrases: the baking topic. -/
def sourdoughPhrases : List String :=
  ["sourdough", "starter", "bread", "bake"]

/-- Topical-flag phrases: the academic-writing/figures topic. -/
def paperPhrases : List String :=
  ["paper", "manuscript", "thesis", "research", "journal", "discussion",
   "results", "experiment", "figure", "figures"]

/-- Topical-flag phrases: the figure-editing topic.  The optional regex
groups `edit(ing)? figures?` and `fix figures?` expand to the literal
alternatives below (a trailing optional `s` is subsumed by substring
matching). -/
def editingFiguresPhrases : List String :=
  ["edit figure", "editing figure", "figure edit", "fix figure",
   "figure formatting", "axis label"]

/-- Topical-flag phrases: the general-project topic. -/
def projectPhrases : List String :=
  ["project", "write", "code", "study", "design", "plan", "finish"]

/-- The source's `buildSuggestedTasks`: fall back to placeholder strings on
blank inputs, derive the resistance category and the topical flags, and fill
the six slots.  `tasks.slice(0, 6)` is `List.take 6`. -/
def buildSuggestedTasks (goal problem : String) : List String :=
  let cleanGoal := if jsTrim goal = "" then "your main phd goal" else jsTrim goal
  let cleanProblem := if jsTrim problem = "" then "starting feels hard" else jsTrim problem
  let resistance := detectResistance cleanGoal cleanProblem
  let text := jsLower (cleanGoal ++ " " ++ cleanProblem)
  let hasRoom := reTest text roomPhrases
  let hasSourdough := reTest text sourdoughPhrases
  let hasPaper := reTest text paperPhrases
  let hasEditingFigures := reTest text editingFiguresPhrases
  let hasDiscussion :=
    seqTest text ["write", "draft"] "discussion" || phraseIn "discussion section" text
  let hasResults :=
    seqTest text ["write", "draft"] "result" || phraseIn "results section" text ||
      phraseIn "experiment" text
  let hasProject := reTest text projectPhrases
  let t1 :=
    if hasRoom then "Pick up everything on your floor and put it on your bed for 5 minutes."
    else "Clear your desk and throw away anything that does not belong there for 4 minutes."
  let t2 :=
    if hasSourdough then
      "Feed your sourdough starter: 50g flour, 50g water, stir, and put the lid on."
    else if hasEditingFigures || hasPaper then
      "Open your figure file, zoom in on figure 1, and set your toolbar for editing in 3 minutes."
    else "Open the file you need and set up only the tools you need in 3 minutes."
  let t3 :=
    if hasEditingFigures then
      "Fix the axis labels and adjust font sizes on figure 1 for 10 minutes only, then stop."
    else if hasDiscussion then
      "Open your discussion section, read your results section, and write one sentence about what your main finding means in 10 minutes only."
    else if resistance = Resistance.ambiguity then
      "Open your project document and write one sentence: what done looks like for this project, 8 minutes only."
    else "Outline the next 3 steps for your project in bullet points for 8 minutes only."
  let t4 :=
    if hasRoom then "Vacuum the floor for 7 minutes and stop when the timer ends."
    else "Stand up, get water, and come back to your desk in 3 minutes."
  let t5 :=
    if hasResults then
      "Pick one experiment, write one result sentence, and add the figure reference for 10 minutes only."
    else if hasEditingFigures then
      "Export figure 1 as a 300 dpi PNG and do not touch figure 2 for 8 minutes only."
    else if resistance = Resistance.anxiety then
      "Set a 10-minute timer, open your project, and finish one paragraph that starts with your best guess."
    else if resistance = Resistance.inertia then
      "Set a 10-minute timer, open your project, and add exactly one sentence to move it forward."
    else if resistance = Resistance.perfectionism then
      "Set a 10-minute timer, write one rough paragraph, and keep it even if it is imperfect."
    else "Set a 10-minute timer and finish one paragraph for your project, nothing more."
  let t6 :=
    if hasPaper || hasProject then
      "Save your document, close the file, and write one line for your next action in 2 minutes."
    else "Put a check mark next to what you finished and write one next action in 2 minutes."
  ([t1, t2, t3, t4, t5, t6]).take 6

/-! ### Streak calculator (`getCurrentStreak`)

The source walks a `Date` cursor backwards one civil day at a time and
renders each position with `toISOString().slice(0, 10)`.  The embedding
uses a civil-date record with explicit Gregorian day decrement and ISO-key
rendering; it models a UTC environment, where the parse/format round-trip
of the source is the identity on date keys. -/

/-- A civil (proleptic Gregorian) date. -/
structure Date where
  year : Nat
  month : Nat
  day : Nat
deriving DecidableEq

/-- Gregorian leap-year rule. -/
def isLeap (y : Nat) : Bool :=
  (y % 4 == 0 && y % 100 != 0) || y % 400 == 0

/-- Length of a month. -/
def daysInMonth (y m : Nat) : Nat :=
  if m = 2 then (if isLeap y then 29 else 28)
  else if m = 4 ∨ m = 6 ∨ m = 9 ∨ m = 11 then 30
  else 31

/-- The previous civil day, as computed by `cursor.setDate(cursor.getDate() - 1)`. -/
def prevDay (d : Date) : Date :=
  if 2 ≤ d.day then { d with day := d.day - 1 }
  else if 2 ≤ d.month then
    { year := d.year, month := d.month - 1, day := daysInMonth d.year (d.month - 1) }
  else { year := d.year - 1, month := 12, day := 31 }

/-- Decimal rendering left-padded with zeros to 2 digits. -/
def pad2 (n : Nat) : String :=
  if n < 10 then "0" ++ toString n else toString n

/-- Decimal rendering left-padded with zeros to 4 digits. -/
def pad4 (n : Nat) : String :=
  String.mk (List.replicate (4 - (toString n).length) '0') ++ toString n

/-- ISO date key `YYYY-MM-DD`, as produced by `toISOString().slice(0, 10)`
for years in the four-digit range. -/
def dateKey (d : Date) : String :=
  pad4 d.year ++ "-" ++ pad2 d.month ++ "-" ++ pad2 d.day

/-- The cursor after walking back `n` days. -/
def prevIter (d : Date) : Nat → Date
  | 0 => d
  | n + 1 => prevIter (prevDay d) n

/-- The `daysWithCompletion` set of the source: the union of
`completedDates` across all actions.  The JavaScript `Set` is modelled by
the duplicate-free list of first occurrences. -/
def daysWithCompletion (actions : List ActionItem) : List String :=
  ((actions.map (fun a => a.completedDates)).flatten).dedup

/-- The backwards walk of `getCurrentStreak`.  The source's `while (true)`
loop stops at the first day missing from the set; since every counted step
consumes a distinct member of the finite set, fuel exceeding the set's size
is enough, and the result is the loop's exact value. -/
def streakAux (days : List String) : Date → Nat → Nat
  | _, 0 => 0
  | cursor, fuel + 1 =>
    if days.contains (dateKey cursor) then streakAux days (prevDay cursor) fuel + 1
    else 0

/-- The source's `getCurrentStreak`, with today's key already parsed into a
civil date. -/
def getCurrentStreak (actions : List ActionItem) (today : Date) : Nat :=
  let days := daysWithCompletion actions
  streakAux days today (days.length + 1)

/-! ### Penalty engine -/

/-- The source's `missedTasks`: actions with no completion dated `todayKey`. -/
def missedTasks (actions : List ActionItem) (todayKey : String) : Nat :=
  (actions.filter (fun a => !(a.completedDates.contains todayKey))).length

/-- The source's `rawPenalty = missedTasks * stakePerMiss`. -/
def rawPenalty (s : SavedState) (todayKey : String) : ℚ :=
  (missedTasks s.actions todayKey : ℚ) * s.stakePerMiss

/-- The source's `penaltyToday = Math.min(stakeBalance, rawPenalty)`. -/
def penaltyToday (s : SavedState) (todayKey : String) : ℚ :=
  min s.stakeBalance (rawPenalty s todayKey)

/-- The source's `canApplyPenalty` guard.  `deadlinePassed` is the value of
the wall-clock comparison, passed in explicitly. -/
def canApplyPenalty (s : SavedState) (todayKey : String) (deadlinePassed : Bool) : Bool :=
  s.strictMode && deadlinePassed && decide (0 < missedTasks s.actions todayKey) &&
    decide (s.lastPenaltyDate ≠ todayKey) && decide (0 < s.stakeBalance)

/-- The source's `applyPenalty` state transition: a no-op unless
`canApplyPenalty` holds and `penaltyToday` is positive; otherwise it floors
the balance at 0 after subtracting the penalty, accumulates the penalty, and
stamps `lastPenaltyDate`.  (The `lastCelebration` counter it also bumps is
transient UI state outside `SavedState`.) -/
def applyPenalty (s : SavedState) (todayKey : String) (deadlinePassed : Bool) : SavedState :=
  if canApplyPenalty s todayKey deadlinePassed && decide (0 < penaltyToday s todayKey) then
    { s with
        stakeBalance := max 0 (s.stakeBalance - penaltyToday s todayKey)
        totalPenalties := s.totalPenalties + penaltyToday s todayKey
        lastPenaltyDate := todayKey }
  else s

/-! ### Deadline check (`isPastDeadline`)

`Number(part)` is a platform primitive; it is modelled by `jsNumber`, which
returns `none` when the coercion yields a non-finite result (`NaN` or
`±Infinity` — `isPastDeadline` treats the two identically via its
`Number.isFinite` guard).  Decimal, hexadecimal, octal and binary string
numerals and the whitespace trim are modelled; float rounding of decimal
literals is not (the values reaching the comparison are exact rationals),
and the overflow-to-`Infinity` threshold is modelled as `2 ^ 1024`, the
supremum of the finite doubles. -/

/-- Is `c` a decimal digit? -/
def isDec (c : Char) : Bool :=
  '0' ≤ c && c ≤ '9'

/-- Value of one digit in the given radix, if valid. -/
def radixDigit? (radix : Nat) (c : Char) : Option Nat :=
  let v :=
    if '0' ≤ c && c ≤ '9' then some (c.toNat - 48)
    else if 'a' ≤ c && c ≤ 'f' then some (c.toNat - 87)
    else if 'A' ≤ c && c ≤ 'F' then some (c.toNat - 55)
    else none
  match v with
  | some n => if n < radix then some n else none
  | none => none

/-- Value of a non-empty run of digits in the given radix. -/
def radixVal? (radix : Nat) (l : List Char) : Option Nat :=
  match l with
  | [] => none
  | _ =>
    l.foldl
      (fun acc c =>
        match acc, radixDigit? radix c with
        | some a, some d => some (a * radix + d)
        | _, _ => none)
      (some 0)

/-- Value of a possibly-empty decimal digit run (used for the parts around
the decimal point, where `"12."` and `".5"` are both legal). -/
def decVal (l : List Char) : Nat :=
  l.foldl (fun acc c => acc * 10 + (c.toNat - 48)) 0

/-- The signed exponent part after `e`/`E`. -/
def parseExpPart (l : List Char) : Option ℤ :=
  match l with
  | '+' :: r => (radixVal? 10 r).map (fun n => (n : ℤ))
  | '-' :: r => (radixVal? 10 r).map (fun n => -(n : ℤ))
  | r => (radixVal? 10 r).map (fun n => (n : ℤ))

/-- Scale a mantissa by a signed power of ten. -/
def applyExp (m : ℚ) (e : ℤ) : ℚ :=
  if 0 ≤ e then m * (10 : ℚ) ^ e.toNat else m / (10 : ℚ) ^ (-e).toNat

/-- `StrUnsignedDecimalLiteral` without the `Infinity` production:
`digits [. digits?] [exp]` or `. digits [exp]`. -/
def parseUnsignedDec (l : List Char) : Option ℚ :=
  let ip := l.takeWhile isDec
  let r1 := l.dropWhile isDec
  match r1 with
  | [] => if ip = [] then none else some (decVal ip : ℚ)
  | '.' :: r2 =>
    let fp := r2.takeWhile isDec
    let r3 := r2.dropWhile isDec
    if ip = [] && fp = [] then none
    else
      let mant : ℚ := (decVal ip : ℚ) + (decVal fp : ℚ) / (10 : ℚ) ^ fp.length
      match r3 with
      | [] => some mant
      | c :: r4 =>
        if c == 'e' || c == 'E' then (parseExpPart r4).map (applyExp mant) else none
  | c :: r2 =>
    if ip = [] then none
    else if c == 'e' || c == 'E' then (parseExpPart r2).map (applyExp (decVal ip : ℚ))
    else none

/-- A decimal literal or `Infinity`, after an optional sign was stripped
(`Infinity` is non-finite, hence `none`). -/
def parseSignable (l : List Char) : Option ℚ :=
  if l = "Infinity".toList then none else parseUnsignedDec l

/-- The supremum `2 ^ 1024` of the finite doubles, as a numeral (the
numeral form keeps kernel evaluation shallow; `maxDoubleBound_eq` checks
it). -/
def maxDoubleBound : ℕ := 179769313486231590772930519078902473361797697894230657273430081157732675805500963132708477322407536021120113879871393357658789768814416622492847430639474124377767893424865485276302219601246094119453082952085005768838150682342462881473913110540827237163350510684586298239947245938479716304835356329624224137216

/-- The overflow bound is indeed `2 ^ 1024`. -/
theorem maxDoubleBound_eq : maxDoubleBound = 2 ^ 1024 := by
  norm_num [maxDoubleBound]

/-- Discard results that a double would round to `±Infinity`. -/
def finiteOnly (q : ℚ) : Option ℚ :=
  if q < (maxDoubleBound : ℚ) ∧ -((maxDoubleBound : ℚ)) < q then some q else none

/-- Modelled from the spec (§6, numeric string inputs) and the ECMAScript
`Number(string)` coercion, which is a platform primitive outside the
repository: trim JavaScript whitespace; empty → `0`; an optional sign
applies only to decimal literals and `Infinity`; unsigned `0x`/`0o`/`0b`
radix literals; anything else is `NaN`.  `none` means the result is
non-finite (`NaN` or `±Infinity`). -/
def jsNumber (s : String) : Option ℚ :=
  let t := ((s.toList.dropWhile jsWhitespaceChar).reverse.dropWhile jsWhitespaceChar).reverse
  match t with
  | [] => some 0
  | '+' :: r => (parseSignable r).bind finiteOnly
  | '-' :: r => ((parseSignable r).map Neg.neg).bind finiteOnly
  | '0' :: c :: r =>
    if c == 'x' || c == 'X' then (radixVal? 16 r).map (fun n => (n : ℚ))
    else if c == 'o' || c == 'O' then (radixVal? 8 r).map (fun n => (n : ℚ))
    else if c == 'b' || c == 'B' then (radixVal? 2 r).map (fun n => (n : ℚ))
    else (parseSignable t).bind finiteOnly
  | _ => (parseSignable t).bind finiteOnly

/-- `ToIntegerOrInfinity` truncation toward zero applied by `setHours`. -/
def jsTrunc (q : ℚ) : ℤ :=
  Int.tdiv q.num (q.den : ℤ)

/-- The source's `isPastDeadline`.  `nowMsOfDay` is the current local
time-of-day in milliseconds.  `deadline.setHours(h, m, 0, 0)` places the
deadline at `h` hours and `m` minutes after the start of the current day
(with overflow carried into neighbouring days by the same arithmetic), so
`now.getTime() > deadline.getTime()` is exactly the comparison below.
A missing split component destructures to `undefined`, which fails the
`Number.isFinite` guard like any non-finite coercion. -/
def isPastDeadline (deadlineTime : String) (nowMsOfDay : ℚ) : Bool :=
  let parts := ((deadlineTime.toList.splitOn ':').map (fun l => jsNumber (String.mk l)))
  match parts.getD 0 none, parts.getD 1 none with
  | some h, some m =>
    decide (((jsTrunc h * 3600000 + jsTrunc m * 60000 : ℤ) : ℚ) < nowMsOfDay)
  | _, _ => false

/-! ## Theorems -/

/-- A concrete state used by the witnesses: one action, not completed today,
a funded wallet, strict mode on, no penalty stamped yet. -/
def sampleState : SavedState :=
  { plannerGoal := "finish methods section draft"
    plannerProblem := "i overthink and delay starting"
    actions := [{ id := "a1", text := "write intro", completedDates := [] }]
    proofLog := ""
    strictMode := true
    deadlineTime := "21:00"
    stakeBalance := 10
    stakePerMiss := 15
    totalPenalties := 0
    lastPenaltyDate := "" }

/-- C2: with non-negative `stakeBalance` and `stakePerMiss` (and the count
of missed tasks non-negative by construction), `penaltyToday` is bounded by
`0 ≤ penaltyToday ≤ stakeBalance`, and applying the penalty never drives
the balance negative. -/
theorem penaltyToday_bounded (s : SavedState) (todayKey : String)
    (hb : 0 ≤ s.stakeBalance) (hr : 0 ≤ s.stakePerMiss) :
    0 ≤ penaltyToday s todayKey ∧ penaltyToday s todayKey ≤ s.stakeBalance ∧
      ∀ deadlinePassed : Bool, 0 ≤ (applyPenalty s todayKey deadlinePassed).stakeBalance := by
  refine ⟨le_min hb (mul_nonneg (Nat.cast_nonneg _) hr), min_le_left _ _, ?_⟩
  intro dp
  unfold applyPenalty
  split
  · exact le_max_left 0 _
  · exact hb

/-- Witness for C2 at the concrete sample state. -/
theorem penaltyToday_bounded_witness :
    (0 ≤ sampleState.stakeBalance ∧ 0 ≤ sampleState.stakePerMiss) ∧
      (0 ≤ penaltyToday sampleState "2024-03-10" ∧
        penaltyToday sampleState "2024-03-10" ≤ sampleState.stakeBalance ∧
        ∀ deadlinePassed : Bool,
          0 ≤ (applyPenalty sampleState "2024-03-10" deadlinePassed).stakeBalance) :=
  ⟨⟨by norm_num [sampleState], by norm_num [sampleState]⟩,
    penaltyToday_bounded sampleState "2024-03-10" (by norm_num [sampleState])
      (by norm_num [sampleState])⟩

/-- The successful branch of `applyPenalty`, in record form. -/
theorem applyPenalty_applies (s : SavedState) (todayKey : String) (dp : Bool)
    (hc : canApplyPenalty s todayKey dp = true) (hp : 0 < penaltyToday s todayKey) :
    applyPenalty s todayKey dp =
      { s with
          stakeBalance := max 0 (s.stakeBalance - penaltyToday s todayKey)
          totalPenalties := s.totalPenalties + penaltyToday s todayKey
          lastPenaltyDate := todayKey } := by
  unfold applyPenalty
  simp [hc, hp]

/-- C10: a permitted, positive penalty application decreases the balance by
exactly `penaltyToday`, increases `totalPenalties` by the same amount
(preserving their sum), stamps `lastPenaltyDate`, and leaves every other
`SavedState` field unchanged. -/
theorem applyPenalty_frame (s : SavedState) (todayKey : String) (dp : Bool)
    (hc : canApplyPenalty s todayKey dp = true) (hp : 0 < penaltyToday s todayKey) :
    (applyPenalty s todayKey dp).stakeBalance = s.stakeBalance - penaltyToday s todayKey ∧
    (applyPenalty s todayKey dp).totalPenalties = s.totalPenalties + penaltyToday s todayKey ∧
    (applyPenalty s todayKey dp).stakeBalance + (applyPenalty s todayKey dp).totalPenalties =
      s.stakeBalance + s.totalPenalties ∧
    (applyPenalty s todayKey dp).lastPenaltyDate = todayKey ∧
    (applyPenalty s todayKey dp).actions = s.actions ∧
    (applyPenalty s todayKey dp).plannerGoal = s.plannerGoal ∧
    (applyPenalty s todayKey dp).plannerProblem = s.plannerProblem ∧
    (applyPenalty s todayKey dp).proofLog = s.proofLog ∧
    (applyPenalty s todayKey dp).strictMode = s.strictMode ∧
    (applyPenalty s todayKey dp).deadlineTime = s.deadlineTime ∧
    (applyPenalty s todayKey dp).stakePerMiss = s.stakePerMiss := by
  have hple : penaltyToday s todayKey ≤ s.stakeBalance := by
    unfold penaltyToday
    exact min_le_left _ _
  have hmax : max 0 (s.stakeBalance - penaltyToday s todayKey) =
      s.stakeBalance - penaltyToday s todayKey := max_eq_right (by linarith)
  rw [applyPenalty_applies s todayKey dp hc hp]
  refine ⟨hmax, rfl, ?_, rfl, rfl, rfl, rfl, rfl, rfl, rfl, rfl⟩
  show max 0 (s.stakeBalance - penaltyToday s todayKey) +
      (s.totalPenalties + penaltyToday s todayKey) = s.stakeBalance + s.totalPenalties
  rw [hmax]
  ring

/-- Witness for C10 at the concrete sample state. -/
theorem applyPenalty_frame_witness :
    (canApplyPenalty sampleState "2024-03-10" true = true ∧
      0 < penaltyToday sampleState "2024-03-10") ∧
    (applyPenalty sampleState "2024-03-10" true).stakeBalance =
      sampleState.stakeBalance - penaltyToday sampleState "2024-03-10" :=
  ⟨⟨by decide, by norm_num [penaltyToday, rawPenalty, missedTasks, sampleState]⟩,
    (applyPenalty_frame sampleState "2024-03-10" true (by decide)
      (by norm_num [penaltyToday, rawPenalty, missedTasks, sampleState])).1⟩

/-- The vacuous branch of `applyPenalty`: a failed guard leaves the state
unchanged. -/
theorem applyPenalty_noop (s : SavedState) (todayKey : String) (dp : Bool)
    (hc : canApplyPenalty s todayKey dp = false) :
    applyPenalty s todayKey dp = s := by
  unfold applyPenalty
  simp [hc]

/-- C1: once a penalty application succeeds it stamps
`lastPenaltyDate = todayKey`; `canApplyPenalty` is then false for that
`todayKey` whatever the deadline flag, so a second invocation is a no-op on
the whole state (in particular on `stakeBalance` and `totalPenalties`):
at most one penalty application per calendar day. -/
theorem applyPenalty_second_noop (s : SavedState) (todayKey : String) (dp dp' : Bool)
    (hc : canApplyPenalty s todayKey dp = true) (hp : 0 < penaltyToday s todayKey) :
    (applyPenalty s todayKey dp).lastPenaltyDate = todayKey ∧
    canApplyPenalty (applyPenalty s todayKey dp) todayKey dp' = false ∧
    applyPenalty (applyPenalty s todayKey dp) todayKey dp' = applyPenalty s todayKey dp := by
  have hstamp : (applyPenalty s todayKey dp).lastPenaltyDate = todayKey := by
    rw [applyPenalty_applies s todayKey dp hc hp]
  have hno : canApplyPenalty (applyPenalty s todayKey dp) todayKey dp' = false := by
    unfold canApplyPenalty
    simp [hstamp]
  exact ⟨hstamp, hno, applyPenalty_noop _ _ _ hno⟩

/-- Witness for C1 at the concrete sample state. -/
theorem applyPenalty_second_noop_witness :
    (canApplyPenalty sampleState "2024-03-10" true = true ∧
      0 < penaltyToday sampleState "2024-03-10") ∧
    applyPenalty (applyPenalty sampleState "2024-03-10" true) "2024-03-10" true =
      applyPenalty sampleState "2024-03-10" true :=
  ⟨⟨by decide, by norm_num [penaltyToday, rawPenalty, missedTasks, sampleState]⟩,
    (applyPenalty_second_noop sampleState "2024-03-10" true true (by decide)
      (by norm_num [penaltyToday, rawPenalty, missedTasks, sampleState])).2.2⟩

/-- C6: the source classifier coincides with the spec's description: a pure,
case-insensitive keyword match over the concatenation of the two inputs,
testing the categories in the fixed priority order ambiguity → overwhelm →
anxiety → inertia → perfectionism, first match winning, `default` when no
phrase set matches. -/
theorem detectResistance_eq_classifySpec (goal blocker : String) :
    detectResistance goal blocker = classifySpec goal blocker := by
  unfold detectResistance classifySpec resistanceTable
  cases h1 : reTest (jsLower (goal ++ " " ++ blocker)) ambiguityPhrases <;>
    cases h2 : reTest (jsLower (goal ++ " " ++ blocker)) overwhelmPhrases <;>
    cases h3 : reTest (jsLower (goal ++ " " ++ blocker)) anxietyPhrases <;>
    cases h4 : reTest (jsLower (goal ++ " " ++ blocker)) inertiaPhrases <;>
    cases h5 : reTest (jsLower (goal ++ " " ++ blocker)) perfectionismPhrases <;>
    simp [List.find?, h1, h2, h3, h4, h5]

/-- Refutation of C5 as stated: for goal "finish methods section draft" and
blocker "i overthink and delay starting" the classifier does NOT return
`inertia` (none of the inertia phrases occurs in the concatenation), and the
suggestion list does NOT contain the 10-minute "add exactly one sentence"
task. -/
theorem scenario_not_inertia :
    detectResistance "finish methods section draft" "i overthink and delay starting" ≠
      Resistance.inertia ∧
    (buildSuggestedTasks "finish methods section draft"
        "i overthink and delay starting").contains
      "Set a 10-minute timer, open your project, and add exactly one sentence to move it forward."
      = false := by
  constructor
  · decide
  · rfl

/-- C5 amended: on those inputs the classifier returns `default`, and the
suggestion engine emits the opening 4-minute desk-clearing task, but its
10-minute slot is the generic "finish one paragraph" task. -/
theorem scenario_amended :
    detectResistance "finish methods section draft" "i overthink and delay starting" =
      Resistance.default ∧
    buildSuggestedTasks "finish methods section draft" "i overthink and delay starting" =
      ["Clear your desk and throw away anything that does not belong there for 4 minutes.",
       "Open the file you need and set up only the tools you need in 3 minutes.",
       "Outline the next 3 steps for your project in bullet points for 8 minutes only.",
       "Stand up, get water, and come back to your desk in 3 minutes.",
       "Set a 10-minute timer and finish one paragraph for your project, nothing more.",
       "Save your document, close the file, and write one line for your next action in 2 minutes."] := by
  constructor
  · rfl
  · rfl

/-- The mutable-set filter and the spec's recursion agree: skipping the
`null` decodes up front is the same as dropping them inside the walk. -/
theorem dedupAux_eq_keepNew (l : List Json) (seen : List String) :
    dedupAux (l.map decodeActionItem) seen = keepNew (l.filterMap decodeActionItem) seen := by
  induction l generalizing seen with
  | nil => rfl
  | cons x rest ih =>
    cases h : decodeActionItem x with
    | none =>
      simp only [List.map_cons, List.filterMap_cons, h, dedupAux]
      exact ih seen
    | some a =>
      simp only [List.map_cons, List.filterMap_cons, h, dedupAux, keepNew]
      split
      · exact ih seen
      · rw [ih]

/-- The source normalizer in spec form. -/
theorem normalizeActions_eq (v : Json) :
    normalizeActions v = keepNew (decodedItems v) [] := by
  cases v <;>
    first
    | rfl
    | exact dedupAux_eq_keepNew _ []

/-- Every entry kept by the dedup walk has a non-empty key not in the
incoming seen set. -/
theorem keepNew_mem (l : List ActionItem) (seen : List String) (a : ActionItem)
    (ha : a ∈ keepNew l seen) :
    normalizeTaskText a.text ≠ "" ∧ seen.contains (normalizeTaskText a.text) = false := by
  induction l generalizing seen with
  | nil => cases ha
  | cons b rest ih =>
    simp only [keepNew] at ha
    split at ha
    · exact ih seen ha
    · next hcond =>
      push_neg at hcond
      rcases List.mem_cons.mp ha with rfl | ha'
      · exact ⟨hcond.1, Bool.not_eq_true _ ▸ hcond.2⟩
      · have h2 := ih (normalizeTaskText b.text :: seen) ha'
        refine ⟨h2.1, ?_⟩
        have := h2.2
        simp only [List.contains_cons, Bool.or_eq_false_iff] at this
        exact this.2

/-- The keys of the dedup walk's output are pairwise distinct. -/
theorem keepNew_nodup (l : List ActionItem) (seen : List String) :
    ((keepNew l seen).map (fun a => normalizeTaskText a.text)).Nodup := by
  induction l generalizing seen with
  | nil => simp [keepNew]
  | cons b rest ih =>
    simp only [keepNew]
    split
    · exact ih seen
    · simp only [List.map_cons, List.nodup_cons]
      refine ⟨?_, ih _⟩
      intro hmem
      obtain ⟨a, ha, heq⟩ := List.mem_map.mp hmem
      have h2 := (keepNew_mem rest _ a ha).2
      rw [heq] at h2
      simp [List.contains_cons] at h2

/-- The dedup walk only drops entries, preserving first-seen order. -/
theorem keepNew_sublist (l : List ActionItem) (seen : List String) :
    (keepNew l seen).Sublist l := by
  induction l generalizing seen with
  | nil => simp [keepNew]
  | cons b rest ih =>
    simp only [keepNew]
    split
    · exact (ih seen).cons b
    · exact (ih _).cons₂ b

/-- C7: the normalizer returns the well-typed entries in first-seen order
(a sublist of the decoded entries), equals the spec's description (drop an
entry iff its key is empty or seen earlier), and its output's keys are all
non-empty and pairwise distinct. -/
theorem normalizeActions_spec (v : Json) :
    normalizeActions v = normalizeSpec v ∧
    (normalizeActions v).Sublist (decodedItems v) ∧
    (∀ a, a ∈ normalizeActions v → normalizeTaskText a.text ≠ "") ∧
    ((normalizeActions v).map (fun a => normalizeTaskText a.text)).Nodup := by
  have heq := normalizeActions_eq v
  refine ⟨heq, ?_, ?_, ?_⟩
  · rw [heq]
    exact keepNew_sublist _ _
  · rw [heq]
    intro a ha
    exact (keepNew_mem _ _ a ha).1
  · rw [heq]
    exact keepNew_nodup _ _

/-- Witness for C7: a concrete raw list with a duplicate key and an
empty-key entry, with the theorem's membership clause instantiated at the
first kept entry. -/
theorem normalizeActions_spec_witness :
    ({ id := "1", text := "A b", completedDates := ["2024-03-10"] } : ActionItem) ∈
      normalizeActions
        (encodeActions
          [{ id := "1", text := "A b", completedDates := ["2024-03-10"] },
           { id := "2", text := "a-b", completedDates := [] },
           { id := "3", text := "??", completedDates := [] }]) ∧
    normalizeTaskText
      ({ id := "1", text := "A b", completedDates := ["2024-03-10"] } : ActionItem).text ≠ "" :=
  ⟨by decide,
    (normalizeActions_spec
      (encodeActions
        [{ id := "1", text := "A b", completedDates := ["2024-03-10"] },
         { id := "2", text := "a-b", completedDates := [] },
         { id := "3", text := "??", completedDates := [] }])).2.2.1 _ (by decide)⟩

/-- A typed action survives the encode/decode round trip unchanged. -/
theorem decode_encode (a : ActionItem) : decodeActionItem (actionToJson a) = some a := by
  have hd : ∀ d : List String, (d.map Json.str).filterMap jsonAsString = d := by
    intro d
    induction d with
    | nil => rfl
    | cons x xs ih => simp [jsonAsString, ih]
  show some
      { id := a.id, text := a.text,
        completedDates := (a.completedDates.map Json.str).filterMap jsonAsString } = some a
  rw [hd]

/-- Decoding an encoded typed list recovers the list. -/
theorem filterMap_decode_encode (l : List ActionItem) :
    (l.map actionToJson).filterMap decodeActionItem = l := by
  induction l with
  | nil => rfl
  | cons a rest ih => simp [decode_encode, ih]

/-- A list whose keys are all non-empty, fresh for the seen set, and
pairwise distinct passes the dedup walk unchanged. -/
theorem keepNew_of_fresh (l : List ActionItem) (seen : List String)
    (hmem : ∀ a, a ∈ l →
      normalizeTaskText a.text ≠ "" ∧ seen.contains (normalizeTaskText a.text) = false)
    (hnd : (l.map (fun a => normalizeTaskText a.text)).Nodup) :
    keepNew l seen = l := by
  induction l generalizing seen with
  | nil => rfl
  | cons b rest ih =>
    have hb := hmem b (List.mem_cons_self b rest)
    simp only [List.map_cons, List.nodup_cons] at hnd
    simp only [keepNew]
    rw [if_neg]
    · rw [ih (normalizeTaskText b.text :: seen) ?_ hnd.2]
      intro a ha
      refine ⟨(hmem a (List.mem_cons_of_mem b ha)).1, ?_⟩
      simp only [List.contains_cons, Bool.or_eq_false_iff]
      refine ⟨?_, (hmem a (List.mem_cons_of_mem b ha)).2⟩
      simp only [beq_eq_false_iff_ne, ne_eq]
      intro hkey
      exact hnd.1 (List.mem_map.mpr ⟨a, ha, hkey⟩)
    · intro hcond
      rcases hcond with hk | hk
      · exact hb.1 hk
      · rw [hb.2] at hk
        cases hk

/-- C8: the task normalizer is idempotent — feeding its own output back in
(as runtime values) reproduces the output exactly. -/
theorem normalizeActions_idempotent (v : Json) :
    normalizeActions (encodeActions (normalizeActions v)) = normalizeActions v := by
  have h1 : normalizeActions (encodeActions (normalizeActions v)) =
      keepNew (normalizeActions v) [] := by
    show dedupAux ((normalizeActions v).map actionToJson |>.map decodeActionItem) [] =
      keepNew (normalizeActions v) []
    rw [dedupAux_eq_keepNew, filterMap_decode_encode]
  rw [h1]
  apply keepNew_of_fresh
  · intro a ha
    rw [normalizeActions_eq] at ha
    exact ⟨(keepNew_mem _ _ a ha).1, rfl⟩
  · rw [normalizeActions_eq]
    exact keepNew_nodup _ _

/-- Refutation of C3 as stated: a structurally wrong (non-string)
`plannerGoal` is NOT replaced by its per-field default — the raw runtime
value passes straight through the `{ ...defaultState, ...parsed }` spread. -/
theorem decode_passes_wrong_type_through :
    (loadSavedState (some (ParseOutcome.success
        (Json.obj [("plannerGoal", Json.num 42)])))).state.plannerGoal = Json.num 42 ∧
      Json.num 42 ≠ Json.str "" :=
  ⟨rfl, fun h => Json.noConfusion h⟩

/-- C3 amended: decode is total (never throws); an absent blob yields the
default state without touching storage; a top-level parse failure yields the
default state and clears the corrupt blob; a missing field falls back to its
default; but per-field type validation only covers `actions`,
`stakeBalance`, `stakePerMiss` and `totalPenalties` (shown here for
`stakeBalance`: wrongly typed or negative values become the default, and
the decoded value is always non-negative) — the six remaining fields are
passed through with whatever runtime value the blob held
(shown here for `plannerGoal`). -/
theorem loadSavedState_amended (j : Json) :
    loadSavedState none = { state := defaultLoaded, removedKey := false } ∧
    loadSavedState (some ParseOutcome.failure) =
      { state := defaultLoaded, removedKey := true } ∧
    (jget j "plannerGoal" = none → (decodeSavedState j).plannerGoal = Json.str "") ∧
    (∀ v, jget j "plannerGoal" = some v → (decodeSavedState j).plannerGoal = v) ∧
    (jget j "stakeBalance" = none → (decodeSavedState j).stakeBalance = 0) ∧
    (∀ q : ℚ, jget j "stakeBalance" = some (Json.num q) → 0 ≤ q →
      (decodeSavedState j).stakeBalance = q) ∧
    (∀ v, jget j "stakeBalance" = some v → (∀ q : ℚ, 0 ≤ q → v ≠ Json.num q) →
      (decodeSavedState j).stakeBalance = 0) ∧
    0 ≤ (decodeSavedState j).stakeBalance := by
  refine ⟨rfl, rfl, ?_, ?_, ?_, ?_, ?_, ?_⟩
  · intro h
    show spreadField j "plannerGoal" (Json.str "") = Json.str ""
    rw [spreadField, h]
  · intro v h
    show spreadField j "plannerGoal" (Json.str "") = v
    rw [spreadField, h]
  · intro h
    show validNumField j "stakeBalance" 0 = 0
    rw [validNumField, h]
  · intro q h hq
    show validNumField j "stakeBalance" 0 = q
    rw [validNumField, h]
    exact if_pos hq
  · intro v h hv
    show validNumField j "stakeBalance" 0 = 0
    rw [validNumField, h]
    cases v with
    | num q =>
      show (if 0 ≤ q then q else 0) = 0
      rw [if_neg]
      intro hq
      exact hv q hq rfl
    | null => rfl
    | bool b => rfl
    | str s => rfl
    | arr l => rfl
    | obj f => rfl
  · show 0 ≤ validNumField j "stakeBalance" 0
    unfold validNumField
    split
    · split
      · assumption
      · exact le_refl 0
    · exact le_refl 0

/-- Witness for C3 amended, at a blob with a boolean `plannerGoal` and a
string `stakeBalance`. -/
theorem loadSavedState_amended_witness :
    (decodeSavedState
        (Json.obj [("plannerGoal", Json.bool false), ("stakeBalance", Json.str "x")])).plannerGoal =
      Json.bool false ∧
    (decodeSavedState
        (Json.obj [("plannerGoal", Json.bool false), ("stakeBalance", Json.str "x")])).stakeBalance =
      0 :=
  ⟨(loadSavedState_amended
      (Json.obj [("plannerGoal", Json.bool false), ("stakeBalance", Json.str "x")])).2.2.2.1
      (Json.bool false) rfl,
    (loadSavedState_amended
      (Json.obj [("plannerGoal", Json.bool false), ("stakeBalance", Json.str "x")])).2.2.2.2.2.2.1
      (Json.str "x") rfl (fun _ _ h => Json.noConfusion h)⟩

/-- Unfolding the backwards walk: with enough fuel, a run of exactly `k`
consecutive present days followed by an absent day yields `k`. -/
theorem streakAux_run (days : List String) (c : Date) (k fuel : Nat) (hk : k < fuel)
    (hin : ∀ i, i < k → days.contains (dateKey (prevIter c i)) = true)
    (hout : days.contains (dateKey (prevIter c k)) = false) :
    streakAux days c fuel = k := by
  induction k generalizing c fuel with
  | zero =>
    cases fuel with
    | zero => exact absurd hk (by omega)
    | succ f =>
      have h0 : dateKey c ∉ days := by
        have := hout
        simpa using this
      simp [streakAux, h0]
  | succ n ih =>
    cases fuel with
    | zero => exact absurd hk (by omega)
    | succ f =>
      have h0 : days.contains (dateKey c) = true := hin 0 (Nat.succ_pos n)
      simp only [streakAux, h0, if_true]
      rw [ih (prevDay c) f (by omega) (fun i hi => hin (i + 1) (by omega)) hout]

/-- When the walked keys are pairwise distinct and all present, the day set
is at least that large (so the default fuel suffices). -/
theorem walked_keys_le_length (days : List String) (c : Date) (k : Nat)
    (hin : ∀ i, i < k → days.contains (dateKey (prevIter c i)) = true)
    (hnd : ((List.range k).map (fun i => dateKey (prevIter c i))).Nodup) :
    k ≤ days.length := by
  classical
  have hlen : ((List.range k).map (fun i => dateKey (prevIter c i))).length = k := by
    simp
  have hsub : ((List.range k).map (fun i => dateKey (prevIter c i))).toFinset ⊆
      days.toFinset := by
    intro x hx
    rw [List.mem_toFinset] at hx ⊢
    obtain ⟨i, hi, rfl⟩ := List.mem_map.mp hx
    have hc := hin i (List.mem_range.mp hi)
    simpa using hc
  calc k = ((List.range k).map (fun i => dateKey (prevIter c i))).toFinset.card := by
        rw [List.toFinset_card_of_nodup hnd, hlen]
    _ ≤ days.toFinset.card := Finset.card_le_card hsub
    _ ≤ days.length := List.toFinset_card_le days

/-- C4: if the union of completion dates contains the keys of the `k`
consecutive days `d, d-1, …, d-(k-1)` (pairwise distinct, as genuine
calendar days are) and not the key of `d-k`, the streak at `d` is exactly
`k`; with `k = 0` this is the claim's special case that a day without
completions (in particular an empty action list) has streak 0. -/
theorem getCurrentStreak_run (actions : List ActionItem) (today : Date) (k : Nat)
    (hin : ∀ i, i < k →
      (daysWithCompletion actions).contains (dateKey (prevIter today i)) = true)
    (hout : (daysWithCompletion actions).contains (dateKey (prevIter today k)) = false)
    (hnd : ((List.range k).map (fun i => dateKey (prevIter today i))).Nodup) :
    getCurrentStreak actions today = k := by
  show streakAux (daysWithCompletion actions) today
      ((daysWithCompletion actions).length + 1) = k
  exact streakAux_run _ _ _ _
    (by have := walked_keys_le_length (daysWithCompletion actions) today k hin hnd; omega)
    hin hout

/-- Witness for C4: completions on 2024-03-09 and 2024-03-10 and none on
2024-03-08 give a streak of 2 on 2024-03-10. -/
theorem getCurrentStreak_run_witness :
    ((∀ i, i < 2 →
        (daysWithCompletion
            [{ id := "a", text := "t", completedDates := ["2024-03-10", "2024-03-09"] }]).contains
          (dateKey (prevIter { year := 2024, month := 3, day := 10 } i)) = true) ∧
      (daysWithCompletion
          [{ id := "a", text := "t", completedDates := ["2024-03-10", "2024-03-09"] }]).contains
        (dateKey (prevIter { year := 2024, month := 3, day := 10 } 2)) = false ∧
      ((List.range 2).map
          (fun i => dateKey (prevIter { year := 2024, month := 3, day := 10 } i))).Nodup) ∧
    getCurrentStreak
        [{ id := "a", text := "t", completedDates := ["2024-03-10", "2024-03-09"] }]
        { year := 2024, month := 3, day := 10 } = 2 :=
  ⟨⟨by decide, by decide, by decide⟩,
    getCurrentStreak_run
      [{ id := "a", text := "t", completedDates := ["2024-03-10", "2024-03-09"] }]
      { year := 2024, month := 3, day := 10 } 2 (by decide) (by decide) (by decide)⟩

/-- Refutation of C9 as stated: the deadline string " : " has no numeric
component (both halves are a single space, which is not a numeral), yet one
millisecond after local midnight the function reports the deadline as
passed: `Number(" ")` coerces to `0`, so the string acts as 00:00 instead
of failing open. -/
theorem isPastDeadline_not_fail_open : isPastDeadline " : " 1 = true := rfl

/-- Zero-padded two-digit numerals contain no colon. -/
theorem pad2_no_colon : ∀ n, n < 60 → ∀ c ∈ (pad2 n).toList, (c == ':') = false := by
  decide

set_option maxRecDepth 4000 in
/-- `Number()` on a zero-padded two-digit numeral yields its value. -/
theorem jsNumber_pad2 : ∀ n, n < 60 → jsNumber (String.mk (pad2 n).toList) = some (n : ℚ) := by
  decide

/-- Truncation toward zero is the identity on natural values. -/
theorem jsTrunc_natCast (n : ℕ) : jsTrunc (n : ℚ) = (n : ℤ) := by
  unfold jsTrunc
  simp

/-- Splitting a well-formed `HH:MM` string at the colon yields its two
digit groups. -/
theorem splitColon_pad2 (h m : Nat) (hh : h < 24) (hm : m < 60) :
    (pad2 h ++ ":" ++ pad2 m).toList.splitOn ':' = [(pad2 h).toList, (pad2 m).toList] := by
  have hdata : (pad2 h ++ ":" ++ pad2 m).toList =
      (pad2 h).toList ++ ':' :: (pad2 m).toList := by
    show ((pad2 h ++ ":" ++ pad2 m)).data = (pad2 h).data ++ ':' :: (pad2 m).data
    rw [String.data_append, String.data_append]
    simp
  rw [hdata]
  show ((pad2 h).toList ++ ':' :: (pad2 m).toList).splitOnP (fun c => c == ':') =
    [(pad2 h).toList, (pad2 m).toList]
  rw [List.splitOnP_first _ _
      (fun c hc => by simp [pad2_no_colon h (by omega) c hc]) ':' (by simp)]
  rw [List.splitOnP_eq_single _ _
      (fun c hc => by simp [pad2_no_colon m hm c hc])]

/-- C9 amended: a deadline string either of whose first two colon-separated
components fails `Number()` coercion to a finite value (`NaN` or
`±Infinity`, including a missing second component) fails open —
`deadlinePassed` is false for every current time; note that an empty or
blank component coerces to `0`, not `NaN`, so strings such as "12:" or
" : " do NOT fail open but act as minute/hour `0`.  For a well-formed
`HH:MM` deadline (`h < 24`, `m < 60`, zero-padded), `deadlinePassed` holds
exactly when the current local time-of-day is strictly past
`h` hours `m` minutes. -/
theorem isPastDeadline_amended (s : String) (now : ℚ) (h m : Nat)
    (hh : h < 24) (hm : m < 60) :
    ((((s.toList.splitOn ':').map (fun l => jsNumber (String.mk l))).getD 0 none = none ∨
        ((s.toList.splitOn ':').map (fun l => jsNumber (String.mk l))).getD 1 none = none) →
      isPastDeadline s now = false) ∧
    isPastDeadline (pad2 h ++ ":" ++ pad2 m) now =
      decide ((h * 3600000 + m * 60000 : ℚ) < now) := by
  constructor
  · intro hcomp
    simp only [isPastDeadline]
    rcases hcomp with h1 | h1
    · rw [h1]
    · rw [h1]
      cases ((s.toList.splitOn ':').map (fun l => jsNumber (String.mk l))).getD 0 none <;> rfl
  · simp only [isPastDeadline]
    rw [splitColon_pad2 h m hh hm]
    simp only [List.map_cons, List.map_nil, List.getD_cons_zero, List.getD_cons_succ]
    rw [jsNumber_pad2 h (by omega), jsNumber_pad2 m hm]
    show decide (((jsTrunc (h : ℚ) * 3600000 + jsTrunc (m : ℚ) * 60000 : ℤ) : ℚ) < now) =
      decide ((h * 3600000 + m * 60000 : ℚ) < now)
    rw [jsTrunc_natCast, jsTrunc_natCast]
    have hcast : (((h : ℤ) * 3600000 + (m : ℤ) * 60000 : ℤ) : ℚ) =
        (h * 3600000 + m * 60000 : ℚ) := by
      push_cast
      ring
    rw [hcast]

/-- Witness for C9 amended: "x" fails open at 21:01, and the well-formed
deadline "21:00" compares strictly at 21:01 (75660000 ms), where it has
passed. -/
theorem isPastDeadline_amended_witness :
    isPastDeadline "x" 75660000 = false ∧
    isPastDeadline (pad2 21 ++ ":" ++ pad2 0) 75660000 =
      decide ((21 * 3600000 + 0 * 60000 : ℚ) < 75660000) ∧
    isPastDeadline (pad2 21 ++ ":" ++ pad2 0) 75660000 = true :=
  ⟨(isPastDeadline_amended "x" 75660000 21 0 (by omega) (by omega)).1 (Or.inl rfl),
    (isPastDeadline_amended "x" 75660000 21 0 (by omega) (by omega)).2,
    rfl⟩

end SprintBuddy
